import Mathlib

/-!
Verification development for the `expensify-auto-login` repository.

We shallowly embed the code-acquisition protocol of `src/email-monitor.ts`
(`EmailMonitor.waitForCode` / `EmailMonitor.findCode`), the email-tag
normalisation and wiring of `src/auto-login.ts` (`stripEmailTag`,
`AutoLogin`), and the email-entry step of the browser driver
(`WebAutomation.enterEmail`, whose source is embedded in
`src/IMPLEMENTATION_GUIDE.md`).

Modelling conventions:
* JavaScript strings are Lean `String`s, manipulated as `List Char`.
* `Date` values are epoch milliseconds, modelled as `Int` (comparison of
  `Date` objects in JS compares their millisecond values).
* Possibly-`undefined` JS values are `Option`s; JS falsiness of the empty
  string and of the number `0` is modelled explicitly where the source
  relies on it.
* The IMAP server and network are an environment: each poll cycle either
  fails (search/openInbox/fetch error, which `findCode` rejects) or yields
  the list of fetched messages matching the server-side search criteria
  `UNSEEN FROM fromEmail SUBJECT "Expensify magic code"`.
* Wall-clock time: each poll cycle is abstracted as instantaneous and the
  fixed 2000 ms inter-cycle sleep is the only time that passes, so the
  elapsed time checked at the top of cycle `i` is `2000 * i`.
-/

namespace AutoLoginModel

/-! ### String matching primitives (List Char level) -/

/-- `strStartsWith s p` is true when `p` is an initial segment of `s`
(used to locate a regex literal at a given scan position). -/
def strStartsWith : List Char → List Char → Bool
  | _, [] => true
  | [], _ :: _ => false
  | b :: ss, a :: ps => a = b && strStartsWith ss ps

/-- `strHas s p`: `s` contains `p` as a contiguous substring.  Embeds the
JS `String.prototype.includes` calls of `enterEmail`. -/
def strHas : List Char → List Char → Bool
  | s, p =>
    strStartsWith s p ||
      match s with
      | [] => false
      | _ :: t => strHas t p

/-- Whitespace class of the JS regex `\s` (ASCII part; the subjects and
bodies involved are ASCII). -/
def jsSpace (c : Char) : Bool :=
  c = ' ' || c = '\t' || c = '\n' || c = '\r' || c = '\x0b' || c = '\x0c'

/-- Matching of the subject regex `/Expensify magic code:\s*(\d+)/` at
successive scan positions, returning capture group 1 of the leftmost
match: after the literal label, `\s*` greedily takes the whitespace run
(`\s` and `\d` are disjoint so backtracking cannot help), and `\d+`
requires a nonempty digit run. -/
def subjectMatchAux (label : List Char) : List Char → Option (List Char)
  | [] => none
  | c :: cs =>
    if strStartsWith (c :: cs) label then
      let rest := (c :: cs).drop label.length
      let ds := (rest.dropWhile jsSpace).takeWhile Char.isDigit
      if ds.isEmpty then subjectMatchAux label cs else some ds
    else subjectMatchAux label cs

/-- The fixed subject label of the primary extraction rule. -/
def magicLabel : List Char := "Expensify magic code:".data

/-- Embeds `subject.match(/Expensify magic code:\s*(\d+)/)`, group 1. -/
def subjectMatch (subject : String) : Option String :=
  (subjectMatchAux magicLabel subject.data).map List.asString

/-- Six consecutive digits starting at the head of `cs`, if present
(one position of the body regex `/(\d{6})/`, which has no boundary
assertions). -/
def sixDigitsAt (cs : List Char) : Option (List Char) :=
  let ds := cs.take 6
  if ds.length = 6 && ds.all Char.isDigit then some ds else none

/-- Leftmost match of the body regex `/(\d{6})/`: scan positions left to
right, succeed at the first position with six consecutive digits. -/
def bodyMatchAux : List Char → Option (List Char)
  | [] => none
  | c :: cs =>
    match sixDigitsAt (c :: cs) with
    | some ds => some ds
    | none => bodyMatchAux cs

/-- Embeds `text.match(/(\d{6})/)`, group 1. -/
def bodyMatch (text : String) : Option String :=
  (bodyMatchAux text.data).map List.asString

/-- JS `a || b` on string-or-undefined values: `undefined` and the empty
string are falsy.  Embeds `parsed.text || parsed.html || ""`. -/
def jsOrElse (a : Option String) (b : String) : String :=
  match a with
  | some s => if s = "" then b else s
  | none => b

/-- Code extraction for one parsed message, as in `findCode`
(src/email-monitor.ts lines 286-303): primary rule on the subject, body
fallback only when the subject rule fails. -/
def extractCode (subject : String) (text html : Option String) : Option String :=
  match subjectMatch subject with
  | some c => some c
  | none => bodyMatch (jsOrElse text (jsOrElse html ""))

/-! ### The fetched-message data model -/

/-- One message as produced by `simpleParser` in `findCode`: subject
(`parsed.subject || ""`), plain-text body, HTML body, and received date
in epoch milliseconds. -/
structure ParsedEmail where
  subject : String
  text : Option String
  html : Option String
  date : Option Int
deriving Repr, DecidableEq

/-- One message delivered by the IMAP fetch in `findCode`.  `uid` is
`attrs.uid` from the `attributes` event (`none` when it never fires and
the 1-second fallback resolves `undefined`); `body = none` models
`simpleParser` throwing on this message, which the handler catches. -/
structure FetchedMessage where
  uid : Option Nat
  body : Option ParsedEmail
deriving Repr, DecidableEq

/-- An entry of the `validEmails` array of `findCode`. -/
structure ValidEmail where
  uid : Nat
  code : String
  date : Int
deriving Repr, DecidableEq

/-- Embeds `if (sinceTime && emailDate && emailDate < sinceTime)`:
the staleness skip fires only when both sides are present and the
message date is strictly before `sinceTime`. -/
def skipOld (sinceTime : Option Int) (date : Option Int) : Bool :=
  match sinceTime, date with
  | some t, some d => decide (d < t)
  | _, _ => false

/-- What one message handler of `findCode` contributes to `validEmails`
(src/email-monitor.ts lines 201-361).  `none` covers every skip path of
the source: missing or zero (falsy) UID, parse error (caught), stale
message, no extractable code, or missing date at the
`if (code && emailDate && uid)` push guard. -/
def processMessage (sinceTime : Option Int) (m : FetchedMessage) : Option ValidEmail :=
  match m.uid with
  | none => none
  | some uid =>
    if uid = 0 then none
    else
      match m.body with
      | none => none
      | some p =>
        if skipOld sinceTime p.date then none
        else
          match extractCode p.subject p.text p.html with
          | none => none
          | some c =>
            match p.date with
            | none => none
            | some d => some { uid := uid, code := c, date := d }

/-- Stable insertion into a list sorted by descending date: the new
element goes after every already-present element with a later-or-equal
date, matching the stable JS sort
`validEmails.sort((a, b) => b.date.getTime() - a.date.getTime())`. -/
def insertByDateDesc (v : ValidEmail) : List ValidEmail → List ValidEmail
  | [] => [v]
  | w :: ws => if v.date ≤ w.date then w :: insertByDateDesc v ws else v :: w :: ws

/-- Stable sort by descending date (insertion sort, processing elements
in their push order). -/
def sortByDateDesc (l : List ValidEmail) : List ValidEmail :=
  l.foldl (fun acc v => insertByDateDesc v acc) []

/-- The `validEmails` array built by one `findCode` cycle, in push order. -/
def validEmails (sinceTime : Option Int) (msgs : List FetchedMessage) : List ValidEmail :=
  msgs.filterMap (processMessage sinceTime)

/-- Outcome of one resolving `findCode` cycle: the resolved code (or
`null`) and the UID passed to `addFlags(uid, "\\Seen")`, if any. -/
structure CycleResult where
  code : Option String
  flagged : Option Nat
deriving Repr, DecidableEq

/-- One `findCode` cycle over the fetched messages, after all message
handlers have run (`pendingCount === 0`): sort `validEmails` by
descending date, take the first entry, mark it read when its UID is
truthy, and resolve its code; resolve `null` when no message qualified. -/
def findCode (sinceTime : Option Int) (msgs : List FetchedMessage) : CycleResult :=
  match sortByDateDesc (msgs.filterMap (processMessage sinceTime)) with
  | [] => { code := none, flagged := none }
  | best :: _ =>
    { code := some best.code
      flagged := if best.uid = 0 then none else some best.uid }

/-! ### The polling loop of `waitForCode` -/

/-- Environment response to one poll cycle: either the IMAP layer throws
(`openInbox` error, `search` error or `fetch` error — all of which reject
`findCode`/`checkEmail`), or it yields the fetched messages matching the
server-side search. -/
inductive CycleOutcome where
  | ok (msgs : List FetchedMessage)
  | fetchErr
deriving Repr

/-- Final status of one `waitForCode` invocation. -/
inductive WaitResult where
  | success (code : String)
  | timeout
  | fatalError
deriving Repr, DecidableEq

/-- Observable outcome of one `waitForCode` invocation: its result, the
UIDs flagged `\Seen` during it (in order), and the elapsed wall-clock
time (under the instantaneous-cycle abstraction) when it settled. -/
structure RunOutcome where
  result : WaitResult
  flagged : List Nat
  elapsed : Nat
deriving Repr, DecidableEq

/-- The `checkEmail` recursion of `waitForCode` (src/email-monitor.ts
lines 130-150): at cycle `i` the elapsed time is `2000 * i`; first the
timeout guard `Date.now() - startTime > maxWaitTime`, then one cycle;
a thrown IMAP error rejects, a resolved code resolves, and a `null`
resolution sleeps 2000 ms and retries. -/
def checkEmail (env : Nat → CycleOutcome) (maxWaitTime : Nat) (sinceTime : Option Int)
    (i : Nat) (flags : List Nat) : RunOutcome :=
  if 2000 * i > maxWaitTime then
    { result := .timeout, flagged := flags, elapsed := 2000 * i }
  else
    match env i with
    | .fetchErr => { result := .fatalError, flagged := flags, elapsed := 2000 * i }
    | .ok msgs =>
      match (findCode sinceTime msgs).code with
      | some c =>
        { result := .success c,
          flagged := flags ++ (findCode sinceTime msgs).flagged.toList,
          elapsed := 2000 * i }
      | none =>
        checkEmail env maxWaitTime sinceTime (i + 1)
          (flags ++ (findCode sinceTime msgs).flagged.toList)
termination_by maxWaitTime + 1 - 2000 * i
decreasing_by omega

/-- `EmailMonitor.waitForCode`: run `checkEmail` from a fresh start time
with no flags yet applied. -/
def waitForCode (env : Nat → CycleOutcome) (maxWaitTime : Nat)
    (sinceTime : Option Int) : RunOutcome :=
  checkEmail env maxWaitTime sinceTime 0 []

/-! ### The email-entry step of the browser driver -/

/-- The ordered email-input locator strategies of
`WebAutomation.enterEmail` (embedded in `src/IMPLEMENTATION_GUIDE.md`). -/
def emailSelectors : List String :=
  ["input[type=\"email\"]",
   "input[name=\"email\"]",
   "input[id*=\"email\"]",
   "input[placeholder*=\"email\" i]",
   "input[placeholder*=\"Email\" i]"]

/-- A page as `enterEmail` observes it: its current URL and the set of
selectors which `page.waitForSelector` finds within its timeout. -/
structure PageState where
  url : String
  matching : List String
deriving Repr, DecidableEq

/-- Observable outcome of `WebAutomation.enterEmail`: returned `true`
(filled and submitted), returned `false` (already logged in, no-op), or
threw `Error("Could not find email input field")`. -/
inductive EnterEmailOutcome where
  | submitted
  | alreadyLoggedIn
  | notFound
deriving Repr, DecidableEq

/-- `WebAutomation.enterEmail`: try the locator strategies in order; on
total miss, return `false` when the URL contains neither `/login` nor
`/signin`, otherwise throw a not-found error. -/
def enterEmail (page : PageState) : EnterEmailOutcome :=
  match emailSelectors.find? (fun sel => page.matching.contains sel) with
  | some _ => .submitted
  | none =>
    if !strHas page.url.data "/login".data && !strHas page.url.data "/signin".data then
      .alreadyLoggedIn
    else
      .notFound

/-! ### Email-tag normalisation and the `AutoLogin` wiring -/

/-- One position of the regex `/\+[^@]+@/`: a `+`, then a greedy nonempty
run of non-`@` characters, then `@`.  Returns the remainder after the
matched span.  (`[^@]+` excludes `@`, so the greedy run ends exactly at
the first `@` and no backtracking arises.) -/
def matchPlusAt : List Char → Option (List Char)
  | [] => none
  | c :: rest =>
    if c = '+' then
      if 1 ≤ (rest.takeWhile (fun x => x ≠ '@')).length then
        match rest.drop (rest.takeWhile (fun x => x ≠ '@')).length with
        | '@' :: tail => some tail
        | _ => none
      else none
    else none

/-- JS `email.replace(/\+[^@]+@/, '@')` (non-global): replace the
leftmost match of the pattern by `@`, leave everything else unchanged. -/
def stripEmailTagAux : List Char → List Char
  | [] => []
  | c :: cs =>
    match matchPlusAt (c :: cs) with
    | some tail => '@' :: tail
    | none => c :: stripEmailTagAux cs

/-- `stripEmailTag` of `src/auto-login.ts` lines 13-16. -/
def stripEmailTag (email : String) : String :=
  (stripEmailTagAux email.data).asString

/-- The two places the `AutoLogin` class uses the configured email: the
constructor builds the `EmailMonitor` with `stripEmailTag(config.email)`
as the IMAP `user`, and `login()` passes the untouched `config.email` to
`enterEmail`. -/
structure AutoLoginWiring where
  imapUser : String
  loginEmail : String
deriving Repr, DecidableEq

/-- The email wiring of `new AutoLogin(config)` / `AutoLogin.login`
(src/auto-login.ts lines 23-43). -/
def mkAutoLogin (email : String) : AutoLoginWiring :=
  { imapUser := stripEmailTag email, loginEmail := email }

/-- The single `waitForCode` call of `AutoLogin.login`
(src/auto-login.ts line 45): `waitForCode(this.config.fromEmail, 60000)`
— the optional `sinceTime` argument is not passed. -/
def loginWaitForCode (env : Nat → CycleOutcome) : RunOutcome :=
  waitForCode env 60000 none

/-! ### Concrete inputs used to instantiate the theorems -/

/-- A candidate 5 seconds older than a `sinceTime` of `T`, carrying code
111111 in its subject. -/
def staleCand (T : Int) : FetchedMessage :=
  { uid := some 1
    body := some { subject := "Expensify magic code: 111111", text := none,
                   html := none, date := some (T - 5000) } }

/-- A candidate 5 seconds newer than a `sinceTime` of `T`, carrying code
222222 in its subject. -/
def freshCand (T : Int) : FetchedMessage :=
  { uid := some 2
    body := some { subject := "Expensify magic code: 222222", text := none,
                   html := none, date := some (T + 5000) } }

/-- A qualifying message at an arbitrary received date `d`. -/
def magicMsg (d : Int) : FetchedMessage :=
  { uid := some 4
    body := some { subject := "Expensify magic code: 147826", text := none,
                   html := none, date := some d } }

/-- A fetched message whose parsing fails (`simpleParser` throws). -/
def parseFailMsg : FetchedMessage := { uid := some 3, body := none }

/-- An environment whose first cycle fetches only a message that fails to
parse and whose second cycle fetches a qualifying message. -/
def envParseFailThenOk : Nat → CycleOutcome :=
  fun i => if i = 0 then .ok [parseFailMsg] else .ok [magicMsg 8000]

/-- An environment that never yields any matching message. -/
def envEmpty : Nat → CycleOutcome := fun _ => .ok []

/-- An environment whose every cycle fetches one qualifying message. -/
def envOneMsg : Nat → CycleOutcome := fun _ => .ok [magicMsg 8000]

/-- A page with no matching email-input selector and a non-login URL. -/
def pageHome : PageState :=
  { url := "https://new.expensify.com/home", matching := [] }

/-- A page with no matching email-input selector on a sign-in URL. -/
def pageSignin : PageState :=
  { url := "https://new.expensify.com/signin", matching := [] }

/-! ### Properties of the selection step of `findCode` -/

theorem mem_insertByDateDesc {x v : ValidEmail} {l : List ValidEmail} :
    x ∈ insertByDateDesc v l ↔ x = v ∨ x ∈ l := by
  induction l with
  | nil => simp [insertByDateDesc]
  | cons w ws ih =>
    by_cases h : v.date ≤ w.date
    · simp only [insertByDateDesc, if_pos h, List.mem_cons, ih]
      tauto
    · simp only [insertByDateDesc, if_neg h, List.mem_cons]

theorem pairwise_insertByDateDesc {v : ValidEmail} {l : List ValidEmail}
    (hl : l.Pairwise (fun a b => b.date ≤ a.date)) :
    (insertByDateDesc v l).Pairwise (fun a b => b.date ≤ a.date) := by
  induction l with
  | nil => simp [insertByDateDesc]
  | cons w ws ih =>
    rcases List.pairwise_cons.mp hl with ⟨hw, hws⟩
    by_cases h : v.date ≤ w.date
    · rw [insertByDateDesc, if_pos h]
      refine List.pairwise_cons.mpr ⟨?_, ih hws⟩
      intro x hx
      rcases mem_insertByDateDesc.mp hx with rfl | hx
      · exact h
      · exact hw x hx
    · rw [insertByDateDesc, if_neg h]
      refine List.pairwise_cons.mpr ⟨?_, hl⟩
      intro x hx
      rcases List.mem_cons.mp hx with rfl | hx
      · omega
      · have := hw x hx
        omega

theorem mem_sortByDateDesc {x : ValidEmail} {l : List ValidEmail} :
    x ∈ sortByDateDesc l ↔ x ∈ l := by
  have key : ∀ (l acc : List ValidEmail),
      (x ∈ l.foldl (fun acc v => insertByDateDesc v acc) acc ↔ x ∈ acc ∨ x ∈ l) := by
    intro l
    induction l with
    | nil => simp
    | cons v vs ih =>
      intro acc
      rw [List.foldl_cons, ih, mem_insertByDateDesc]
      simp only [List.mem_cons]
      tauto
  simpa using key l []

theorem pairwise_sortByDateDesc (l : List ValidEmail) :
    (sortByDateDesc l).Pairwise (fun a b => b.date ≤ a.date) := by
  have key : ∀ (l acc : List ValidEmail),
      acc.Pairwise (fun a b => b.date ≤ a.date) →
      (l.foldl (fun acc v => insertByDateDesc v acc) acc).Pairwise
        (fun a b => b.date ≤ a.date) := by
    intro l
    induction l with
    | nil => intro acc h; simpa using h
    | cons v vs ih =>
      intro acc h
      exact ih _ (pairwise_insertByDateDesc h)
  exact key l [] (by simp)

theorem processMessage_uid_ne_zero {s : Option Int} {m : FetchedMessage} {v : ValidEmail}
    (h : processMessage s m = some v) : v.uid ≠ 0 := by
  unfold processMessage at h
  rcases m with ⟨uid, body⟩
  rcases uid with _ | u
  · simp at h
  · simp only at h
    by_cases hu : u = 0
    · rw [if_pos hu] at h; simp at h
    · rw [if_neg hu] at h
      rcases body with _ | p
      · simp at h
      · simp only at h
        by_cases hs : skipOld s p.date
        · rw [if_pos hs] at h; simp at h
        · rw [if_neg hs] at h
          rcases hc : extractCode p.subject p.text p.html with _ | c
          · rw [hc] at h; simp at h
          · rw [hc] at h
            rcases hd : p.date with _ | d
            · rw [hd] at h; simp at h
            · rw [hd] at h
              simp only [Option.some_inj] at h
              subst h
              simpa using hu

theorem processMessage_not_stale {T : Int} {s : Option Int} {m : FetchedMessage}
    {v : ValidEmail} (hs : s = some T) (h : processMessage s m = some v) :
    T ≤ v.date := by
  subst hs
  unfold processMessage at h
  rcases m with ⟨uid, body⟩
  rcases uid with _ | u
  · simp at h
  · simp only at h
    by_cases hu : u = 0
    · rw [if_pos hu] at h; simp at h
    · rw [if_neg hu] at h
      rcases body with _ | p
      · simp at h
      · simp only at h
        by_cases hsk : skipOld (some T) p.date
        · rw [if_pos hsk] at h; simp at h
        · rw [if_neg hsk] at h
          rcases hc : extractCode p.subject p.text p.html with _ | c
          · rw [hc] at h; simp at h
          · rw [hc] at h
            rcases hd : p.date with _ | d
            · rw [hd] at h; simp at h
            · rw [hd] at h
              simp only [Option.some_inj] at h
              subst h
              simp only [skipOld, hd, decide_eq_true_eq] at hsk
              simp only
              omega

/-- Selection soundness of one cycle: a resolved code belongs to a valid
candidate whose date is maximal among all valid candidates, and exactly
that candidate's UID is flagged `\Seen`. -/
theorem findCode_spec {s : Option Int} {msgs : List FetchedMessage} {c : String}
    (h : (findCode s msgs).code = some c) :
    ∃ v ∈ validEmails s msgs, v.code = c ∧ (∀ w ∈ validEmails s msgs, w.date ≤ v.date) ∧
      (findCode s msgs).flagged = some v.uid := by
  unfold findCode at h ⊢
  rcases hs : sortByDateDesc (msgs.filterMap (processMessage s)) with _ | ⟨best, tail⟩
  · rw [hs] at h; simp at h
  · rw [hs] at h
    simp only [Option.some_inj] at h
    have hbm : best ∈ msgs.filterMap (processMessage s) := by
      apply mem_sortByDateDesc.mp
      rw [hs]; exact List.mem_cons_self _ _
    refine ⟨best, hbm, h, ?_, ?_⟩
    · intro w hw
      have hw' : w ∈ sortByDateDesc (msgs.filterMap (processMessage s)) :=
        mem_sortByDateDesc.mpr hw
      rw [hs] at hw'
      rcases List.mem_cons.mp hw' with rfl | hw''
      · exact le_refl _
      · have hp := pairwise_sortByDateDesc (msgs.filterMap (processMessage s))
        rw [hs] at hp
        exact (List.pairwise_cons.mp hp).1 w hw''
    · rcases List.mem_filterMap.mp hbm with ⟨m, _, hpm⟩
      have hne := processMessage_uid_ne_zero hpm
      simp [hne]

/-- A cycle that resolves `null` flags nothing: `addFlags` is reached
only in the `validEmails.length > 0` branches, which resolve a code. -/
theorem findCode_flagged_of_code_none {s : Option Int} {msgs : List FetchedMessage}
    (h : (findCode s msgs).code = none) : (findCode s msgs).flagged = none := by
  unfold findCode at h ⊢
  rcases hs : sortByDateDesc (msgs.filterMap (processMessage s)) with _ | ⟨best, tail⟩
  · simp
  · rw [hs] at h; simp at h

/-! ### Properties of the tag-stripping rewrite -/

theorem takeWhile_append_of_all {p : Char → Bool} {t : List Char} {x : Char}
    {d : List Char} (ht : ∀ c ∈ t, p c) (hx : p x = false) :
    (t ++ x :: d).takeWhile p = t := by
  induction t with
  | nil => simp [List.takeWhile_cons, hx]
  | cons a t ih =>
    have ha : p a := ht a (List.mem_cons_self a t)
    simp only [List.cons_append, List.takeWhile_cons, ha, if_true]
    rw [ih (fun c hc => ht c (List.mem_cons_of_mem a hc))]

theorem matchPlusAt_match {t d : List Char} (ht : t ≠ []) (hat : '@' ∉ t) :
    matchPlusAt ('+' :: (t ++ '@' :: d)) = some d := by
  have htw : (t ++ '@' :: d).takeWhile (fun x => x ≠ '@') = t := by
    apply takeWhile_append_of_all
    · intro c hc
      simp only [ne_eq, decide_eq_true_eq]
      intro h; exact hat (h ▸ hc)
    · simp
  have hlen : 1 ≤ ((t ++ '@' :: d).takeWhile (fun x => x ≠ '@')).length := by
    rw [htw]
    cases t with
    | nil => exact absurd rfl ht
    | cons a t => simp
  rw [matchPlusAt, if_pos rfl, if_pos hlen, htw, List.drop_left]
  rfl

theorem matchPlusAt_miss {c : Char} {cs : List Char} (hc : c ≠ '+') :
    matchPlusAt (c :: cs) = none := by
  rw [matchPlusAt, if_neg hc]

theorem stripEmailTagAux_split {u t d : List Char} (hu : '+' ∉ u) (ht : t ≠ [])
    (hat : '@' ∉ t) :
    stripEmailTagAux (u ++ '+' :: (t ++ '@' :: d)) = u ++ '@' :: d := by
  induction u with
  | nil =>
    rw [List.nil_append, stripEmailTagAux, matchPlusAt_match ht hat]
    rfl
  | cons a u ih =>
    have ha : a ≠ '+' := fun h => hu (h ▸ List.mem_cons_self a u)
    rw [List.cons_append, stripEmailTagAux, matchPlusAt_miss ha,
      ih (fun h => hu (List.mem_cons_of_mem a h))]
    rfl

/-! ### Properties of the polling loop -/

/-- Behaviour of `checkEmail` from any loop state: a timeout leaves the
flag trail untouched, and a success resolves the code of exactly one
executed cycle, appending exactly that cycle's flagged UID. -/
theorem checkEmail_spec (env : Nat → CycleOutcome) (m : Nat) (s : Option Int) :
    ∀ n i flags, m + 1 - 2000 * i ≤ n →
      ((checkEmail env m s i flags).result = .timeout →
        (checkEmail env m s i flags).flagged = flags) ∧
      (∀ c, (checkEmail env m s i flags).result = .success c →
        ∃ k msgs u, env k = .ok msgs ∧ (findCode s msgs).code = some c ∧
          (findCode s msgs).flagged = some u ∧
          (checkEmail env m s i flags).flagged = flags ++ [u]) := by
  intro n
  induction n with
  | zero =>
    intro i flags hn
    have hguard : 2000 * i > m := by omega
    rw [checkEmail, if_pos hguard]
    constructor
    · intro _; rfl
    · intro c hc; simp at hc
  | succ n ih =>
    intro i flags hn
    rw [checkEmail]
    by_cases hguard : 2000 * i > m
    · rw [if_pos hguard]
      constructor
      · intro _; rfl
      · intro c hc; simp at hc
    · rw [if_neg hguard]
      cases henv : env i with
      | fetchErr =>
        simp only
        constructor
        · intro hres; simp at hres
        · intro c hc; simp at hc
      | ok msgs =>
        simp only
        rcases hcode : (findCode s msgs).code with _ | c'
        · have hflag := findCode_flagged_of_code_none hcode
          rw [hflag]
          simp only [Option.toList_none, List.append_nil]
          exact ih (i + 1) flags (by omega)
        · rcases findCode_spec hcode with ⟨v, _, _, _, hflag⟩
          rw [hflag]
          constructor
          · intro hres; simp at hres
          · intro c hc
            simp only [WaitResult.success.injEq] at hc
            subst hc
            exact ⟨i, msgs, v.uid, henv, hcode, hflag, rfl⟩

/-- If every cycle of the environment yields no qualifying candidate,
`checkEmail` times out, and it settles strictly after `maxWaitTime` but
no later than one poll interval past it. -/
theorem checkEmail_timeout_of_allNone (env : Nat → CycleOutcome) (m : Nat)
    (s : Option Int)
    (hall : ∀ k, ∃ msgs, env k = .ok msgs ∧ (findCode s msgs).code = none) :
    ∀ n i flags, m + 1 - 2000 * i ≤ n → 2000 * i ≤ m + 2000 →
      (checkEmail env m s i flags).result = .timeout ∧
      m < (checkEmail env m s i flags).elapsed ∧
      (checkEmail env m s i flags).elapsed ≤ m + 2000 := by
  intro n
  induction n with
  | zero =>
    intro i flags hn hinv
    have hguard : 2000 * i > m := by omega
    rw [checkEmail, if_pos hguard]
    exact ⟨rfl, hguard, hinv⟩
  | succ n ih =>
    intro i flags hn hinv
    rw [checkEmail]
    by_cases hguard : 2000 * i > m
    · rw [if_pos hguard]
      exact ⟨rfl, hguard, hinv⟩
    · rw [if_neg hguard]
      rcases hall i with ⟨msgs, henv, hcode⟩
      rw [henv]
      simp only
      rw [hcode]
      exact ih (i + 1) _ (by omega) (by omega)

/-- If the cycles before `k` yield no qualifying candidate within the
time bound and cycle `k` throws an IMAP error, `checkEmail` rejects with
that error. -/
theorem checkEmail_fetchErr_reach (env : Nat → CycleOutcome) (m : Nat) (s : Option Int) :
    ∀ k i flags, 2000 * (i + k) ≤ m →
      (∀ j, j < k → ∃ msgs, env (i + j) = .ok msgs ∧ (findCode s msgs).code = none) →
      env (i + k) = .fetchErr →
      (checkEmail env m s i flags).result = .fatalError := by
  intro k
  induction k with
  | zero =>
    intro i flags hbound _ herr
    have hguard : ¬ 2000 * i > m := by omega
    rw [checkEmail, if_neg hguard]
    rw [show env i = .fetchErr from by simpa using herr]
  | succ k ih =>
    intro i flags hbound hnone herr
    have hguard : ¬ 2000 * i > m := by omega
    rw [checkEmail, if_neg hguard]
    rcases hnone 0 (Nat.succ_pos k) with ⟨msgs, henv, hcode⟩
    rw [show env i = .ok msgs from by simpa using henv]
    simp only
    rw [hcode]
    apply ih (i + 1)
    · omega
    · intro j hj
      rcases hnone (j + 1) (by omega) with ⟨msgs', henv', hcode'⟩
      exact ⟨msgs', by simpa [Nat.add_assoc, Nat.add_comm 1 j] using henv', hcode'⟩
    · simpa [Nat.add_assoc, Nat.add_comm 1 k] using herr

/-- A message whose parsing failed contributes nothing to `validEmails`
(the handler catches the parse error and only decrements the pending
count). -/
theorem processMessage_parse_fail (s : Option Int) (u : Option Nat) :
    processMessage s { uid := u, body := none } = none := by
  unfold processMessage
  rcases u with _ | u
  · rfl
  · simp only
    by_cases hu : u = 0
    · rw [if_pos hu]
    · rw [if_neg hu]

/-- A cycle containing a message that fails to parse resolves exactly as
the same cycle without that message: the failure is not propagated. -/
theorem findCode_skip_parse_fail (s : Option Int) (u : Option Nat)
    (msgs : List FetchedMessage) :
    findCode s ({ uid := u, body := none } :: msgs) = findCode s msgs := by
  unfold findCode
  rw [List.filterMap_cons, processMessage_parse_fail]

/-- A candidate strictly older than `sinceTime` is skipped no matter what
code it carries. -/
theorem processMessage_skip_stale {T : Int} {m : FetchedMessage} {p : ParsedEmail}
    {d : Int} (hb : m.body = some p) (hd : p.date = some d) (hlt : d < T) :
    processMessage (some T) m = none := by
  rcases m with ⟨uid, body⟩
  simp only at hb
  subst hb
  unfold processMessage
  rcases uid with _ | u
  · rfl
  · simp only
    by_cases hu : u = 0
    · rw [if_pos hu]
    · rw [if_neg hu]
      have hskip : skipOld (some T) p.date = true := by
        rw [hd]
        simpa [skipOld] using hlt
      rw [hskip]
      simp

/-! ### Leftmost-match property of the body fallback -/

theorem sixDigitsAt_some {cs ds : List Char} (h : sixDigitsAt cs = some ds) :
    ds = cs.take 6 ∧ ds.length = 6 ∧ ds.all Char.isDigit := by
  unfold sixDigitsAt at h
  by_cases hc : (cs.take 6).length = 6 ∧ (cs.take 6).all Char.isDigit
  · rw [if_pos (by simp [hc.1, hc.2])] at h
    simp only [Option.some_inj] at h
    subst h
    exact ⟨rfl, hc.1, hc.2⟩
  · rw [if_neg (by simpa [Decidable.not_and_iff_or_not] using hc)] at h
    simp at h

theorem bodyMatchAux_leftmost :
    ∀ {cs ds : List Char}, bodyMatchAux cs = some ds →
      ∃ i, sixDigitsAt (cs.drop i) = some ds ∧
        ∀ j, j < i → sixDigitsAt (cs.drop j) = none := by
  intro cs
  induction cs with
  | nil => intro ds h; simp [bodyMatchAux] at h
  | cons c cs ih =>
    intro ds h
    rw [bodyMatchAux] at h
    rcases h6 : sixDigitsAt (c :: cs) with _ | ds'
    · rw [h6] at h
      rcases ih h with ⟨i, hi, hmin⟩
      refine ⟨i + 1, by simpa using hi, ?_⟩
      intro j hj
      cases j with
      | zero => simpa using h6
      | succ j => simpa using hmin j (by omega)
    · rw [h6] at h
      simp only [Option.some_inj] at h
      subst h
      exact ⟨0, by simpa using h6, by omega⟩

/-! ### Tag stripping at the String level -/

theorem stripEmailTag_split {user tag domain : String}
    (hu : '+' ∉ user.data) (ht : tag.data ≠ []) (hat : '@' ∉ tag.data) :
    stripEmailTag (user ++ "+" ++ tag ++ "@" ++ domain) = user ++ "@" ++ domain := by
  apply String.ext
  show stripEmailTagAux (user ++ "+" ++ tag ++ "@" ++ domain).data
      = (user ++ "@" ++ domain).data
  rw [show (user ++ "+" ++ tag ++ "@" ++ domain).data
        = user.data ++ '+' :: (tag.data ++ '@' :: domain.data) by
      simp [String.data_append]]
  rw [stripEmailTagAux_split hu ht hat]
  simp [String.data_append]

/-! ### The claims -/

/-- C1: whenever a `waitForCode` invocation resolves with a code, that
code comes from the resolving cycle's candidate with the maximum (latest)
timestamp among the candidates that yielded valid codes — never an
arbitrary one — and exactly one code is returned. -/
theorem C1_resolved_code_is_latest (env : Nat → CycleOutcome) (m : Nat)
    (s : Option Int) (c : String)
    (h : (waitForCode env m s).result = .success c) :
    ∃ k msgs, env k = .ok msgs ∧
      ∃ v ∈ validEmails s msgs, v.code = c ∧
        ∀ w ∈ validEmails s msgs, w.date ≤ v.date := by
  unfold waitForCode at h
  rcases (checkEmail_spec env m s (m + 1) 0 [] (by omega)).2 c h with
    ⟨k, msgs, u, henv, hcode, hflag, hfl⟩
  rcases findCode_spec hcode with ⟨v, hv, hvc, hmax, hvu⟩
  exact ⟨k, msgs, henv, v, hv, hvc, hmax⟩

/-- C1 instantiated at a concrete environment. -/
theorem C1_resolved_code_is_latest_witness :
    ∃ k msgs, envOneMsg k = .ok msgs ∧
      ∃ v ∈ validEmails none msgs, v.code = "147826" ∧
        ∀ w ∈ validEmails none msgs, w.date ≤ v.date :=
  C1_resolved_code_is_latest envOneMsg 60000 none "147826" (by
    have hf : findCode none [magicMsg 8000]
        = { code := some "147826", flagged := some 4 } := by decide
    simp [waitForCode, checkEmail, envOneMsg, hf])

/-- C2: with `sinceTime` provided, every candidate strictly older than it
is excluded from selection even if it carries an extractable code; with
`sinceTime = T` and candidates at `T-5s` (code 111111) and `T+5s` (code
222222), the cycle resolves 222222. -/
theorem C2_sinceTime_excludes_stale :
    (∀ (T : Int) (m : FetchedMessage) (p : ParsedEmail) (d : Int),
      m.body = some p → p.date = some d → d < T →
        processMessage (some T) m = none) ∧
    (∀ T : Int, (findCode (some T) [staleCand T, freshCand T]).code = some "222222") := by
  constructor
  · intro T m p d hb hd hlt
    exact processMessage_skip_stale hb hd hlt
  · intro T
    have h1 : processMessage (some T) (staleCand T) = none :=
      processMessage_skip_stale (p :=
        { subject := "Expensify magic code: 111111", text := none,
          html := none, date := some (T - 5000) }) rfl rfl (by omega)
    have he : extractCode "Expensify magic code: 222222" none none
        = some "222222" := by decide
    have h2 : processMessage (some T) (freshCand T)
        = some { uid := 2, code := "222222", date := T + 5000 } := by
      unfold freshCand processMessage
      simp [skipOld, he]
    unfold findCode
    rw [show List.filterMap (processMessage (some T)) [staleCand T, freshCand T]
          = [{ uid := 2, code := "222222", date := T + 5000 }] from by
        rw [List.filterMap_cons, h1, List.filterMap_cons, h2, List.filterMap_nil]]
    rfl

/-- C2 instantiated at `T = 0`. -/
theorem C2_sinceTime_excludes_stale_witness :
    processMessage (some 0) (staleCand 0) = none ∧
    (findCode (some 0) [staleCand 0, freshCand 0]).code = some "222222" :=
  ⟨C2_sinceTime_excludes_stale.1 0 (staleCand 0)
      { subject := "Expensify magic code: 111111", text := none,
        html := none, date := some (0 - 5000) }
      (0 - 5000) rfl rfl (by norm_num),
   C2_sinceTime_excludes_stale.2 0⟩

/-- C3: a successful `waitForCode` flags exactly one message read — the
selected winning candidate, never a speculative one — and a timed-out
`waitForCode` flags none. -/
theorem C3_flags_winner_only (env : Nat → CycleOutcome) (m : Nat) (s : Option Int) :
    (∀ c, (waitForCode env m s).result = .success c →
      ∃ k msgs, env k = .ok msgs ∧
        ∃ v ∈ validEmails s msgs, v.code = c ∧
          (∀ w ∈ validEmails s msgs, w.date ≤ v.date) ∧
          (waitForCode env m s).flagged = [v.uid]) ∧
    ((waitForCode env m s).result = .timeout → (waitForCode env m s).flagged = []) := by
  unfold waitForCode
  constructor
  · intro c h
    rcases (checkEmail_spec env m s (m + 1) 0 [] (by omega)).2 c h with
      ⟨k, msgs, u, henv, hcode, hflag, hfl⟩
    rcases findCode_spec hcode with ⟨v, hv, hvc, hmax, hvu⟩
    refine ⟨k, msgs, henv, v, hv, hvc, hmax, ?_⟩
    have hu : u = v.uid := by
      rw [hflag] at hvu
      exact (Option.some_inj.mp hvu.symm).symm
    rw [hfl, hu]
    rfl
  · intro h
    exact (checkEmail_spec env m s (m + 1) 0 [] (by omega)).1 h

/-- C3 instantiated: one flag on success, none on timeout. -/
theorem C3_flags_winner_only_witness :
    (∃ k msgs, envOneMsg k = .ok msgs ∧
      ∃ v ∈ validEmails none msgs, v.code = "147826" ∧
        (∀ w ∈ validEmails none msgs, w.date ≤ v.date) ∧
        (waitForCode envOneMsg 60000 none).flagged = [v.uid]) ∧
    (waitForCode envEmpty 5000 none).flagged = [] :=
  ⟨(C3_flags_winner_only envOneMsg 60000 none).1 "147826" (by
      have hf : findCode none [magicMsg 8000]
          = { code := some "147826", flagged := some 4 } := by decide
      simp [waitForCode, checkEmail, envOneMsg, hf]),
   (C3_flags_winner_only envEmpty 5000 none).2 (by
      simp [waitForCode, checkEmail, envEmpty, findCode, sortByDateDesc])⟩

/-- C4: if no poll cycle produces a qualifying candidate, `waitForCode`
fails with a timeout, waiting past `maxWaitMillis` but never more than
one fixed 2000 ms poll interval beyond it. -/
theorem C4_timeout_bound (env : Nat → CycleOutcome) (m : Nat) (s : Option Int)
    (hall : ∀ k, ∃ msgs, env k = .ok msgs ∧ (findCode s msgs).code = none) :
    (waitForCode env m s).result = .timeout ∧
    m < (waitForCode env m s).elapsed ∧
    (waitForCode env m s).elapsed ≤ m + 2000 := by
  unfold waitForCode
  exact checkEmail_timeout_of_allNone env m s hall (m + 1) 0 [] (by omega) (by omega)

/-- C4 instantiated at an environment with no matching messages. -/
theorem C4_timeout_bound_witness :
    (waitForCode envEmpty 5000 none).result = .timeout ∧
    5000 < (waitForCode envEmpty 5000 none).elapsed ∧
    (waitForCode envEmpty 5000 none).elapsed ≤ 5000 + 2000 :=
  C4_timeout_bound envEmpty 5000 none (fun k => ⟨[], rfl, by decide⟩)

/-- C5 counterexample: the body fallback regex has no boundary
assertions, so a seven-digit run — which the claim says the fallback must
not match — yields its first six digits. -/
theorem C5_counterexample :
    subjectMatch "Re: hello" = none ∧
    extractCode "Re: hello" (some "1234567") none = some "123456" := by
  decide

/-- C5 (amended): the fallback yields the six digits at the leftmost
position of the body (plain-text, else HTML) where six consecutive
digits begin; a digit run shorter than six alone never matches, while a
longer run matches through its first six digits. -/
theorem C5_fallback_first_six_digits :
    (∀ (b c : String), bodyMatch b = some c →
      c.data.length = 6 ∧ c.data.all Char.isDigit ∧
        ∃ i, sixDigitsAt (b.data.drop i) = some c.data ∧
          ∀ j, j < i → sixDigitsAt (b.data.drop j) = none) ∧
    extractCode "no label here" (some "code is 482913 thanks") none = some "482913" ∧
    extractCode "no label here" none (some "<b>482913</b>") = some "482913" ∧
    extractCode "no label here" (some "12345 not enough") none = none ∧
    extractCode "no label here" (some "1234567") none = some "123456" := by
  refine ⟨?_, by decide, by decide, by decide, by decide⟩
  intro b c h
  unfold bodyMatch at h
  rcases haux : bodyMatchAux b.data with _ | ds
  · rw [haux] at h; simp at h
  · rw [haux] at h
    simp only [Option.map_some', Option.some_inj] at h
    subst h
    rcases bodyMatchAux_leftmost haux with ⟨i, hi, hmin⟩
    rcases sixDigitsAt_some hi with ⟨_, hlen, hdig⟩
    exact ⟨hlen, hdig, i, hi, hmin⟩

/-- C5 (amended) instantiated at a concrete body. -/
theorem C5_fallback_first_six_digits_witness :
    "482913".data.length = 6 ∧ "482913".data.all Char.isDigit ∧
      ∃ i, sixDigitsAt ("x482913y".data.drop i) = some "482913".data ∧
        ∀ j, j < i → sixDigitsAt ("x482913y".data.drop j) = none :=
  C5_fallback_first_six_digits.1 "x482913y" "482913" (by decide)

/-- C6: the primary subject rule takes precedence — whenever the subject
pattern matches, its code is returned and the body fallback is never
consulted; subject "Expensify magic code: 147826" yields 147826. -/
theorem C6_subject_precedence :
    (∀ (subject : String) (text html : Option String) (c : String),
      subjectMatch subject = some c → extractCode subject text html = some c) ∧
    extractCode "Expensify magic code: 147826" (some "999999 in body") none
      = some "147826" := by
  constructor
  · intro subject text html c h
    unfold extractCode
    rw [h]
  · decide

/-- C6 instantiated at a message matched by both rules. -/
theorem C6_subject_precedence_witness :
    extractCode "Expensify magic code: 147826" (some "555555 here") none
      = some "147826" :=
  C6_subject_precedence.1 "Expensify magic code: 147826" (some "555555 here") none
    "147826" (by decide)

/-- C7 counterexample: the first cycle fetches a message whose parsing
fails, yet `waitForCode` resolves a code from a later cycle instead of
failing with an error — the parse failure does not propagate. -/
theorem C7_counterexample :
    envParseFailThenOk 0 = .ok [parseFailMsg] ∧ parseFailMsg.body = none ∧
    (waitForCode envParseFailThenOk 60000 none).result = .success "147826" := by
  refine ⟨rfl, rfl, ?_⟩
  have h0 : findCode none [parseFailMsg] = { code := none, flagged := none } := by decide
  have h1 : findCode none [magicMsg 8000]
      = { code := some "147826", flagged := some 4 } := by decide
  simp [waitForCode, checkEmail, envParseFailThenOk, h0, h1]

/-- C7 (amended): IMAP-level failures (openInbox, search or fetch
errors) are fatal and propagate to reject `waitForCode`; a parse failure
of an individual fetched message is caught instead — that message is
skipped and the cycle resolves normally. -/
theorem C7_network_fatal_parse_skipped :
    (∀ (env : Nat → CycleOutcome) (m : Nat) (s : Option Int) (k : Nat),
      2000 * k ≤ m →
      (∀ j, j < k → ∃ msgs, env j = .ok msgs ∧ (findCode s msgs).code = none) →
      env k = .fetchErr →
      (waitForCode env m s).result = .fatalError) ∧
    (∀ (s : Option Int) (u : Option Nat) (msgs : List FetchedMessage),
      findCode s ({ uid := u, body := none } :: msgs) = findCode s msgs) := by
  constructor
  · intro env m s k hk hnone herr
    unfold waitForCode
    apply checkEmail_fetchErr_reach env m s k 0 []
    · omega
    · intro j hj
      simpa [Nat.zero_add] using hnone j hj
    · simpa [Nat.zero_add] using herr
  · intro s u msgs
    exact findCode_skip_parse_fail s u msgs

/-- C7 (amended) instantiated: a first-cycle fetch error is fatal, and a
parse-failing message drops out of its cycle. -/
theorem C7_network_fatal_parse_skipped_witness :
    (waitForCode (fun _ => CycleOutcome.fetchErr) 60000 none).result = .fatalError ∧
    findCode none [{ uid := some 3, body := none }, magicMsg 8000]
      = findCode none [magicMsg 8000] :=
  ⟨C7_network_fatal_parse_skipped.1 (fun _ => .fetchErr) 60000 none 0 (by omega)
      (fun j hj => absurd hj (Nat.not_lt_zero j)) rfl,
   C7_network_fatal_parse_skipped.2 none (some 3) [magicMsg 8000]⟩

/-- C8: when no email-input locator matches, `enterEmail` returns false
(a no-op) on a page whose URL contains neither `/login` nor `/signin`,
and fails with a not-found error on an actual login/signin page. -/
theorem C8_enterEmail_miss_behaviour (page : PageState)
    (hmiss : emailSelectors.find? (fun sel => page.matching.contains sel) = none) :
    (strHas page.url.data "/login".data = false →
      strHas page.url.data "/signin".data = false →
      enterEmail page = .alreadyLoggedIn) ∧
    (strHas page.url.data "/login".data = true ∨
      strHas page.url.data "/signin".data = true →
      enterEmail page = .notFound) := by
  constructor
  · intro h1 h2
    unfold enterEmail
    rw [hmiss, h1, h2]
    rfl
  · intro h
    unfold enterEmail
    rw [hmiss]
    rcases h with h | h
    · rw [h]; simp
    · rw [h]; simp

/-- C8 instantiated at a home page and a sign-in page. -/
theorem C8_enterEmail_miss_behaviour_witness :
    enterEmail pageHome = .alreadyLoggedIn ∧ enterEmail pageSignin = .notFound :=
  ⟨(C8_enterEmail_miss_behaviour pageHome (by decide)).1 (by decide) (by decide),
   (C8_enterEmail_miss_behaviour pageSignin (by decide)).2 (Or.inr (by decide))⟩

/-- C9: an email with a `+tag` segment has the tag stripped before use as
the mailbox (IMAP) account identifier, while the untouched address is the
one submitted to the login page. -/
theorem C9_tag_stripped_for_imap_only (user tag domain : String)
    (hu : '+' ∉ user.data) (ht : tag.data ≠ []) (hat : '@' ∉ tag.data) :
    (mkAutoLogin (user ++ "+" ++ tag ++ "@" ++ domain)).imapUser
      = user ++ "@" ++ domain ∧
    (mkAutoLogin (user ++ "+" ++ tag ++ "@" ++ domain)).loginEmail
      = user ++ "+" ++ tag ++ "@" ++ domain :=
  ⟨stripEmailTag_split hu ht hat, rfl⟩

/-- C9 instantiated at a concrete tagged address. -/
theorem C9_tag_stripped_for_imap_only_witness :
    (mkAutoLogin ("john" ++ "+" ++ "expensify" ++ "@" ++ "gmail.com")).imapUser
      = "john" ++ "@" ++ "gmail.com" ∧
    (mkAutoLogin ("john" ++ "+" ++ "expensify" ++ "@" ++ "gmail.com")).loginEmail
      = "john" ++ "+" ++ "expensify" ++ "@" ++ "gmail.com" :=
  C9_tag_stripped_for_imap_only "john" "expensify" "gmail.com"
    (by decide) (by decide) (by decide)

/-- C10 (implicit): `AutoLogin.login` calls `waitForCode` with the sender
address and the 60000 ms bound only — no `sinceTime` — so the staleness
filter is inactive in the end-to-end flow and a qualifying unread message
of any age can be selected as the winning candidate. -/
theorem C10_login_passes_no_sinceTime :
    (∀ env, loginWaitForCode env = waitForCode env 60000 none) ∧
    (∀ d : Int, (findCode none [magicMsg d]).code = some "147826") ∧
    (∀ d : Int, (loginWaitForCode (fun _ => .ok [magicMsg d])).result
      = .success "147826") := by
  have he : extractCode "Expensify magic code: 147826" none none
      = some "147826" := by decide
  have hp : ∀ d : Int, processMessage none (magicMsg d)
      = some { uid := 4, code := "147826", date := d } := by
    intro d
    unfold magicMsg processMessage
    simp [skipOld, he]
  have hx : ∀ d : Int, findCode none [magicMsg d]
      = { code := some "147826", flagged := some 4 } := by
    intro d
    unfold findCode
    rw [show List.filterMap (processMessage none) [magicMsg d]
          = [{ uid := 4, code := "147826", date := d }] from by
        rw [List.filterMap_cons, hp, List.filterMap_nil]]
    rfl
  refine ⟨fun env => rfl, fun d => by rw [hx d], fun d => ?_⟩
  simp [loginWaitForCode, waitForCode, checkEmail, hx d]

end AutoLoginModel
